import Mathlib

/-!
Formal model of the CappellaMarialis serverless handlers.

The JavaScript request handlers are embedded shallowly as pure Lean
functions.  Database tables become explicit in-memory state, stateful
handlers return an ordered trace of database operations, and every
external side effect (payment-processor verify call, e-mail provider,
translation provider) is an oracle supplied through an environment
record.  Supabase reads/writes themselves are modelled as always
succeeding; the fallible external HTTP calls keep their failure modes.
-/

/-- JS `String.prototype.trim` style whitespace test, covering the ASCII
whitespace characters matched by the JS `\s` class (space, tab, newline,
carriage return, vertical tab, form feed). -/
def jsWhitespace (c : Char) : Bool :=
  c = ' ' || c = '\t' || c = '\n' || c = '\r' || c = '\x0b' || c = '\x0c'

/-- Drop whitespace from both ends of a character list (JS `trim`). -/
def trimWsChars (l : List Char) : List Char :=
  ((l.dropWhile jsWhitespace).reverse.dropWhile jsWhitespace).reverse

/-- JS `s.trim()`. -/
def jsTrim (s : String) : String :=
  String.mk (trimWsChars s.data)

namespace P24

/-- A row of the `p24_transactions` table.  The opaque JSON columns
(`register_payload`, `verify_payload`, `consents_json`, `meta_json`) are
not modelled: no control flow reads them. -/
structure Tx where
  session_id : String
  status : String
  amount_grosze : Option Int
  currency : Option String
  email : Option String
  public_ref : Option String
  p24_order_id : Option String
  paid_at : Option String
  thankyou_email_sent_at : Option String
  thankyou_email_error : Option String
  created_at : Option String
  deriving Repr, DecidableEq

/-- A row of the append-only `p24_events` table (`payload_json` is opaque
and not modelled). -/
structure PEvent where
  event_type : String
  session_id : Option String
  p24_order_id : Option String
  deriving Repr, DecidableEq

/-- The database state touched by the webhook handler. -/
structure DB where
  txs : List Tx
  events : List PEvent
  deriving Repr, DecidableEq

/-- JS truthiness of a nullable string (`null`, `undefined` and the empty
string are falsy). -/
def strTruthy : Option String → Bool
  | none => false
  | some s => s ≠ ""

/-- JS truthiness of the result of `toInt` (`null` and `0` are falsy). -/
def intTruthy : Option Int → Bool
  | none => false
  | some n => n ≠ 0

/-- `supabase.from('p24_transactions')...eq('session_id', sid).maybeSingle()`. -/
def findTx (db : DB) (sid : String) : Option Tx :=
  db.txs.find? (fun t => t.session_id = sid)

/-- The parsed webhook payload after the handler's own field extraction:
`sessionId = String(p24_session_id || sessionId || '').trim()` and
`orderId = orderIdRaw != null ? Number(orderIdRaw) : null`.  `none`
covers both a missing field and a NaN conversion. -/
structure Payload where
  sessionId : String
  orderId : Option Int
  deriving Repr, DecidableEq

/-- Outcomes of the external calls and the clock readings used by one
webhook invocation. -/
structure Env where
  verifyOk : Bool
  emailOk : Bool
  emailErrMsg : String
  now : String
  sentNow : String
  deriving Repr, DecidableEq

/-- Database operations the handler can issue, in program order. -/
inductive Op where
  | insertEvent (e : PEvent)
  | markPaid (sid : String) (paidAt : String) (orderId : String)
  | markEmailSent (sid : String) (sentAt : String)
  | setEmailError (sid : String) (msg : String)
  deriving Repr, DecidableEq

/-- `update({status:'paid', paid_at, p24_order_id, verify_payload})
.eq('session_id', sid).neq('status', 'paid')` applied to one row. -/
def applyMarkPaid (sid paidAt orderId : String) (t : Tx) : Tx :=
  if t.session_id = sid ∧ t.status ≠ "paid" then
    { t with status := "paid", paid_at := some paidAt, p24_order_id := some orderId }
  else t

/-- `update({thankyou_email_sent_at, thankyou_email_error:null})
.eq('session_id', sid).is('thankyou_email_sent_at', null)` on one row. -/
def applyMarkEmailSent (sid sentAt : String) (t : Tx) : Tx :=
  if t.session_id = sid ∧ t.thankyou_email_sent_at = none then
    { t with thankyou_email_sent_at := some sentAt, thankyou_email_error := none }
  else t

/-- `update({thankyou_email_error: msg}).eq('session_id', sid)` on one row. -/
def applySetEmailError (sid msg : String) (t : Tx) : Tx :=
  if t.session_id = sid then { t with thankyou_email_error := some msg } else t

/-- Effect of one database operation on the database state. -/
def applyOp (db : DB) : Op → DB
  | .insertEvent e => { db with events := db.events ++ [e] }
  | .markPaid sid p o => { db with txs := db.txs.map (applyMarkPaid sid p o) }
  | .markEmailSent sid ts => { db with txs := db.txs.map (applyMarkEmailSent sid ts) }
  | .setEmailError sid m => { db with txs := db.txs.map (applySetEmailError sid m) }

/-- Apply a trace of database operations in order. -/
def applyOps (db : DB) (ops : List Op) : DB :=
  ops.foldl applyOp db

/-- The `webhook_status` audit event inserted first on every invocation
(`session_id: sessionId || null`, `p24_order_id: orderId ? String(orderId) : null`). -/
def auditEvent (p : Payload) : PEvent :=
  { event_type := "webhook_status",
    session_id := if p.sessionId = "" then none else some p.sessionId,
    p24_order_id :=
      match p.orderId with
      | some n => if n = 0 then none else some (toString n)
      | none => none }

/-- The best-effort `error` event written by the catch block. -/
def errorEvent : PEvent :=
  { event_type := "error", session_id := none, p24_order_id := none }

/-- The `verify` event written after the conditional mark-paid update. -/
def verifyEvent (sid : String) (orderId : Int) : PEvent :=
  { event_type := "verify", session_id := some sid, p24_order_id := some (toString orderId) }

/-- Result of one webhook invocation: HTTP status, the trace of database
operations in program order, and whether the e-mail and verify calls were
attempted. -/
structure HResult where
  status : Nat
  ops : List Op
  emailCalled : Bool
  verifyCalled : Bool
  deriving Repr, DecidableEq

/-- The row returned by `update(...).neq('status','paid').select(...)`:
the first matching row, after the update was applied to it. -/
def updatedRow (env : Env) (db : DB) (p : Payload) : Option Tx :=
  ((db.txs.filter (fun t => t.session_id = p.sessionId ∧ t.status ≠ "paid")).head?).map
    (applyMarkPaid p.sessionId env.now (toString (p.orderId.getD 0)))

/-- Trace prefix of the successful verify path: write-ahead audit event,
conditional mark-paid update, then the `verify` event. -/
def basicOps (env : Env) (p : Payload) : List Op :=
  [Op.insertEvent (auditEvent p),
   Op.markPaid p.sessionId env.now (toString (p.orderId.getD 0)),
   Op.insertEvent (verifyEvent p.sessionId (p.orderId.getD 0))]

/-- The part of the handler that runs once the transaction row has been
loaded and is not yet `paid`, the amount is valid and the verify call
succeeded: conditional mark-paid update, `verify` event, and the one-time
thank-you e-mail. -/
def paidPhase (env : Env) (db : DB) (p : Payload) : HResult :=
  match updatedRow env db p with
  | some u =>
    if strTruthy u.email ∧ ¬ strTruthy u.thankyou_email_sent_at then
      if env.emailOk then
        ⟨200, basicOps env p ++ [Op.markEmailSent p.sessionId env.sentNow], true, true⟩
      else
        ⟨200, basicOps env p ++ [Op.setEmailError p.sessionId env.emailErrMsg], true, true⟩
    else ⟨200, basicOps env p, false, true⟩
  | none => ⟨200, basicOps env p, false, true⟩

/-- The webhook handler of `api/p24/status.js` for a POST delivery.
Every branch answers 200 `OK`; a thrown error is absorbed by the catch
block, which appends a best-effort `error` event. -/
def handler (env : Env) (db : DB) (p : Payload) : HResult :=
  if p.sessionId = "" ∨ ¬ intTruthy p.orderId then
    ⟨200, [Op.insertEvent (auditEvent p)], false, false⟩
  else
    match findTx db p.sessionId with
    | none => ⟨200, [Op.insertEvent (auditEvent p)], false, false⟩
    | some tx =>
      if tx.status = "paid" then ⟨200, [Op.insertEvent (auditEvent p)], false, false⟩
      else if ¬ intTruthy tx.amount_grosze then
        ⟨200, [Op.insertEvent (auditEvent p), Op.insertEvent errorEvent], false, false⟩
      else if ¬ env.verifyOk then
        ⟨200, [Op.insertEvent (auditEvent p), Op.insertEvent errorEvent], false, true⟩
      else
        paidPhase env db p

/-- Database state after one webhook delivery. -/
def run (env : Env) (db : DB) (p : Payload) : DB :=
  applyOps db (handler env db p).ops

/-- Database state after a sequence of webhook deliveries. -/
def runAll (db : DB) : List (Env × Payload) → DB
  | [] => db
  | ep :: rest => runAll (run ep.1 db ep.2) rest

/-- The transaction projection served by the status-query endpoint. -/
structure TxProjection where
  status : String
  amount_grosze : Option Int
  currency : Option String
  created_at : Option String
  paid_at : Option String
  deriving Repr, DecidableEq

/-- Modelled from the spec: the status-query endpoint itself is not among
the repository files under src (only the webhook handler and its shared
transaction store are).  Per the spec it accepts a `sessionId` query
parameter and returns the current Transaction projection (status, amount,
currency, timestamps) or null when no such transaction exists. -/
def statusQuery (db : DB) (sessionId : String) : Option TxProjection :=
  (findTx db sessionId).map
    (fun t => ⟨t.status, t.amount_grosze, t.currency, t.created_at, t.paid_at⟩)

end P24

namespace FBNews

/-- SHA-256 of `JSON.stringify({title, body})` is modelled as an injective
digest: the pair of whitespace-normalized strings itself.  (The hex
digest is collision-free for the purposes of this development.) -/
structure ContentDigest where
  title : String
  body : String
  deriving Repr, DecidableEq

/-- One maximal run of whitespace becomes a single space
(`String(s).replace(/\s+/g, ' ')`); `inWs` tracks whether the previous
character belonged to a whitespace run. -/
def collapseWsAux : Bool → List Char → List Char
  | _, [] => []
  | inWs, c :: rest =>
    if jsWhitespace c then
      if inWs then collapseWsAux true rest
      else ' ' :: collapseWsAux true rest
    else c :: collapseWsAux false rest

/-- `normalizeText`: `String(s || '').replace(/\s+/g, ' ').trim()`. -/
def normalizeText (s : Option String) : String :=
  String.mk (trimWsChars (collapseWsAux false (s.getD "").data))

/-- One externally sourced content item.  In the derived-language (EN)
cache, `title`/`body` can be the `null` placeholders inserted before
translation. -/
structure Post where
  title : Option String
  body : Option String
  date : Option String
  link : Option String
  image : String
  content_hash : Option ContentDigest
  deriving Repr, DecidableEq

/-- `postContentHash`: digest over normalized title and body only. -/
def postContentHash (p : Post) : ContentDigest :=
  { title := normalizeText p.title, body := normalizeText p.body }

/-- `stablePostsFingerprint`: the outer SHA-256 over the JSON array of
per-item digests, modelled injectively as the ordered list of digests. -/
def stablePostsFingerprint (posts : List Post) : List ContentDigest :=
  posts.map postContentHash

/-- One stored `facebook_cache` row body (`data` column): the EN payload
shape `{cached_at, source_hash, posts}`; both `source_hash` and `posts`
may be absent in rows written by older code. -/
structure CacheData where
  cached_at : Nat
  source_hash : Option (List ContentDigest)
  posts : Option (List Post)
  deriving Repr, DecidableEq

/-- The DeepL call environment: whether the HTTP response is ok, and the
`translations[i].text` values the provider returns (`none` for a missing
`text` field). -/
structure DeepLEnv where
  httpOk : Bool
  translations : List (Option String)
  deriving Repr, DecidableEq

/-- `translateManyWithDeepL(texts, apiKey)`: returns the translated list
(`none` when the HTTP call fails and the function throws) paired with the
number of provider requests made. -/
def translateManyWithDeepL (env : DeepLEnv) (texts : List String) :
    Option (List String) × Nat :=
  let clean := texts
  if clean.isEmpty then (some [], 0)
  else if clean.all (fun t => t = "") then (some (clean.map (fun _ => "")), 0)
  else if ¬ env.httpOk then (none, 1)
  else
    let out := env.translations.map (fun x => x.getD "")
    (some ((out ++ List.replicate (clean.length - out.length) "").take clean.length), 1)

/-- Field selector for the `toTranslate` work list. -/
inductive TField where
  | title
  | body
  deriving Repr, DecidableEq

/-- One `{idx, field, text}` entry of the `toTranslate` work list. -/
structure TransReq where
  idx : Nat
  field : TField
  text : String
  deriving Repr, DecidableEq

/-- Write one translated field into a post. -/
def setPostField (p : Post) : TField → Option String → Post
  | .title, v => { p with title := v }
  | .body, v => { p with body := v }

/-- `nextEnPosts[i][field] = v` (no-op when `i` is out of range, which the
construction never produces). -/
def writeField (arr : List Post) (i : Nat) (f : TField) (v : Option String) :
    List Post :=
  match arr[i]? with
  | some p => arr.set i (setPostField p f v)
  | none => arr

/-- JS `x || null` on a nullable string. -/
def jsOrNull (o : Option String) : Option String :=
  match o with
  | some s => if s = "" then none else some s
  | none => none

/-- The `enByContentHash` map: built by `Map.set` over the existing EN
posts whose `content_hash` is truthy, so the last post with a given
digest wins. -/
def lookupEnByHash (existing : List Post) (ch : ContentDigest) : Option Post :=
  (existing.filter (fun q => q.content_hash = some ch)).getLast?

/-- One iteration of the `for (const p of posts)` loop building
`nextEnPosts` and `toTranslate`. -/
def buildStep (existing : List Post) (acc : List Post × List TransReq) (p : Post) :
    List Post × List TransReq :=
  let ch := postContentHash p
  let reuse :=
    match lookupEnByHash existing ch with
    | some ex => if ex.title ≠ none ∨ ex.body ≠ none then some ex else none
    | none => none
  match reuse with
  | some ex =>
    (acc.1 ++
      [{ ex with
          date := jsOrNull p.date
          link := jsOrNull p.link
          image := p.image
          content_hash := some ch }], acc.2)
  | none =>
    (acc.1 ++ [{ p with content_hash := some ch, title := none, body := none }],
     acc.2 ++ [⟨acc.1.length, .title, p.title.getD ""⟩,
               ⟨acc.1.length, .body, p.body.getD ""⟩])

/-- Phase 3 of `ensureEnglishCache`: the new EN post list (with `null`
placeholders for untranslated fields) and the `toTranslate` work list. -/
def buildEnPosts (existing posts : List Post) : List Post × List TransReq :=
  posts.foldl (buildStep existing) ([], [])

/-- One iteration of phase 4a: an entry with empty text is written as
`''` immediately, the others are kept for translation. -/
def splitStep (acc : List Post × List TransReq) (t : TransReq) :
    List Post × List TransReq :=
  if t.text = "" then (writeField acc.1 t.idx t.field (some ""), acc.2)
  else (acc.1, acc.2 ++ [t])

/-- Phase 4a: entries with empty text are written as `''` immediately;
the others are kept (the `slots`/`texts` pair of the source, kept here as
the sub-list of requests still to translate). -/
def splitEmpty (arr : List Post) (reqs : List TransReq) :
    List Post × List TransReq :=
  reqs.foldl splitStep (arr, [])

/-- One iteration of phase 4b:
`nextEnPosts[t.idx][t.field] = translated[j] || ''`. -/
def fillStep (a : List Post) (pair : TransReq × String) : List Post :=
  writeField a pair.1.idx pair.1.field
    (some (if pair.2 = "" then "" else pair.2))

/-- Phase 4b: write the provider's translations back into the post list. -/
def fillTranslations (arr : List Post) (kept : List TransReq)
    (translated : List String) : List Post :=
  (kept.zip translated).foldl fillStep arr

/-- Result of `ensureEnglishCache`: the returned payload (`none` when the
function throws), the number of translation-provider requests, and
whether the EN cache row was (re)written. -/
structure EnsureResult where
  result : Option CacheData
  deeplCalls : Nat
  wroteCache : Bool
  deriving Repr, DecidableEq

/-- The rebuild path of `ensureEnglishCache` (phases 2-5), taken when the
stored source hash does not match the recomputed fingerprint. -/
def ensureRebuild (env : DeepLEnv) (nowSec : Nat)
    (posts existingPosts : List Post) : EnsureResult :=
  let built := buildEnPosts existingPosts posts
  let split := splitEmpty built.1 built.2
  let texts := split.2.map (fun t => t.text)
  if texts.isEmpty then
    ⟨some ⟨nowSec, some (stablePostsFingerprint posts), some split.1⟩, 0, true⟩
  else
    match translateManyWithDeepL env texts with
    | (some translated, n) =>
      ⟨some ⟨nowSec, some (stablePostsFingerprint posts),
             some (fillTranslations split.1 split.2 translated)⟩, n, true⟩
    | (none, n) => ⟨none, n, false⟩

/-- `ensureEnglishCache({sourceHash, posts})`: recompute the fingerprint
locally, return the stored EN payload unchanged when its recorded source
hash matches, otherwise rebuild, translating only unmatched items. -/
def ensureEnglishCache (env : DeepLEnv) (deepLKeyPresent : Bool) (nowSec : Nat)
    (posts : List Post) (enCache : Option CacheData) : EnsureResult :=
  if ¬ deepLKeyPresent then ⟨none, 0, false⟩
  else
    match enCache with
    | some data =>
      if data.source_hash = some (stablePostsFingerprint posts) then
        ⟨some data, 0, false⟩
      else ensureRebuild env nowSec posts (data.posts.getD [])
    | none => ensureRebuild env nowSec posts []

end FBNews

namespace Create

/-- `toInt` of `api/p24/create.js`: `Number(x)` followed by `Math.trunc`.
The raw JSON amount is modelled as `Option Rat` (`none` for values whose
`Number(...)` conversion is not finite); `Math.trunc` is integer division
of numerator by denominator, which rounds toward zero. -/
def toInt (x : Option Rat) : Option Int :=
  x.map (fun q => Int.tdiv q.num (q.den : Int))

/-- Result of `validateAmount`; the three error constructors stand for
the three distinct error strings of the source. -/
inductive AmountCheck where
  | ok (value : Int)
  | errInvalid
  | errMin
  | errMax
  deriving Repr, DecidableEq

/-- `validateAmount(amountGrosze)` with the configured bounds
(`DONATION_MIN_GROSZE`, default 100; `DONATION_MAX_GROSZE`, default
1000000). -/
def validateAmount (minG maxG : Int) (amountGrosze : Option Rat) : AmountCheck :=
  match toInt amountGrosze with
  | none => .errInvalid
  | some n =>
    if n < minG then .errMin
    else if n > maxG then .errMax
    else .ok n

/-- A JSON primitive as tested by `mustBeTrue`. -/
inductive JsVal where
  | vBool (b : Bool)
  | vStr (s : String)
  | vNum (n : Int)
  | vNull
  deriving Repr, DecidableEq

/-- `mustBeTrue(v)`: `v === true || v === 'true' || v === 1 || v === '1'
|| v === 'on'`. -/
def mustBeTrue : JsVal → Bool
  | .vBool b => b
  | .vStr s => s = "true" || s = "1" || s = "on"
  | .vNum n => n = 1
  | .vNull => false

/-- Which early-return rejection the create handler produced. -/
inductive CreateErr where
  | contentType
  | amount (e : AmountCheck)
  | consents
  | email
  deriving Repr, DecidableEq

/-- Outcome of the create handler's validation prefix. -/
inductive CreateStep where
  | rejected (status : Nat) (err : CreateErr)
  | accepted (amountGrosze : Int)
  deriving Repr, DecidableEq

/-- The validation prefix of the create handler: content-type check
(415), amount validation (400), required consents (400), then the
optional e-mail requirement (400). -/
def createValidate (minG maxG : Int) (requireEmail : Bool) (ctJson : Bool)
    (amountGrosze : Option Rat) (privacy terms : JsVal) (email : String) :
    CreateStep :=
  if ¬ ctJson then .rejected 415 .contentType
  else
    match validateAmount minG maxG amountGrosze with
    | .ok n =>
      if ¬ (mustBeTrue privacy ∧ mustBeTrue terms) then .rejected 400 .consents
      else if requireEmail ∧ jsTrim email = "" then .rejected 400 .email
      else .accepted n
    | e => .rejected 400 (.amount e)

end Create

namespace Samples

/-- A registered, unpaid transaction used as concrete test data. -/
def tx1 : P24.Tx :=
  { session_id := "s1", status := "registered", amount_grosze := some 500,
    currency := some "PLN", email := some "a@b", public_ref := some "DON-1",
    p24_order_id := none, paid_at := none, thankyou_email_sent_at := none,
    thankyou_email_error := none, created_at := some "t0" }

/-- The same transaction already marked paid. -/
def txPaid : P24.Tx :=
  { tx1 with status := "paid", paid_at := some "t1" }

/-- Store holding the single registered transaction. -/
def dbReg : P24.DB :=
  { txs := [tx1], events := [] }

/-- Store holding the single paid transaction. -/
def dbPaid : P24.DB :=
  { txs := [txPaid], events := [] }

/-- All external calls succeed. -/
def env1 : P24.Env :=
  { verifyOk := true, emailOk := true, emailErrMsg := "E", now := "N", sentNow := "S" }

/-- A well-formed webhook payload for `tx1`. -/
def pay1 : P24.Payload :=
  { sessionId := "s1", orderId := some 7 }

/-- Payload whose session has no transaction in `dbReg`. -/
def payUnknown : P24.Payload :=
  { sessionId := "zzz", orderId := some 7 }

/-- A concrete content item. -/
def postA : FBNews.Post :=
  { title := some "Hello.", body := some "Hello. World", date := some "d1",
    link := some "l1", image := "i1", content_hash := none }

/-- Same semantic content as `postA`, different cosmetic fields. -/
def postA2 : FBNews.Post :=
  { title := some " Hello. ", body := some "Hello.  World", date := some "d2",
    link := some "l2", image := "i2", content_hash := none }

/-- Different semantic content. -/
def postB : FBNews.Post :=
  { title := some "Bye.", body := some "Bye. World", date := some "d1",
    link := some "l1", image := "i1", content_hash := none }

/-- A DeepL environment returning one translation per requested text. -/
def deepl2 : FBNews.DeepLEnv :=
  { httpOk := true, translations := [some "T-en", some "B-en"] }

/-- A stored EN cache payload whose recorded source hash matches the
collection `[postA]`. -/
def dataEn : FBNews.CacheData :=
  { cached_at := 7,
    source_hash := some (FBNews.stablePostsFingerprint [postA]),
    posts := some [] }

end Samples

namespace P24

theorem applyOps_cons (db : DB) (op : Op) (ops : List Op) :
    applyOps db (op :: ops) = applyOps (applyOp db op) ops := rfl

theorem mem_events_applyOp {e : PEvent} (db : DB) (op : Op) (h : e ∈ db.events) :
    e ∈ (applyOp db op).events := by
  cases op with
  | insertEvent e2 => exact List.mem_append_left _ h
  | markPaid s a b => exact h
  | markEmailSent s a => exact h
  | setEmailError s a => exact h

theorem mem_events_applyOps {e : PEvent} (ops : List Op) (db : DB) (h : e ∈ db.events) :
    e ∈ (applyOps db ops).events := by
  induction ops generalizing db with
  | nil => exact h
  | cons op rest ih => exact ih _ (mem_events_applyOp db op h)

theorem applyMarkPaid_of_paid {t : Tx} (sid pa oid : String) (h : t.status = "paid") :
    applyMarkPaid sid pa oid t = t := by
  unfold applyMarkPaid
  rw [if_neg]
  intro hc
  exact hc.2 h

theorem applyOp_paid_preserved (db : DB) (op : Op) (i : Nat) (t : Tx)
    (hget : db.txs[i]? = some t) (hp : t.status = "paid") :
    ∃ u, (applyOp db op).txs[i]? = some u ∧ u.status = "paid" := by
  cases op with
  | insertEvent e => exact ⟨t, hget, hp⟩
  | markPaid sid pa oid =>
    refine ⟨t, ?_, hp⟩
    simp [applyOp, List.getElem?_map, hget, applyMarkPaid_of_paid sid pa oid hp]
  | markEmailSent sid ts =>
    refine ⟨applyMarkEmailSent sid ts t, ?_, ?_⟩
    · simp [applyOp, List.getElem?_map, hget]
    · unfold applyMarkEmailSent
      split <;> simpa using hp
  | setEmailError sid m =>
    refine ⟨applySetEmailError sid m t, ?_, ?_⟩
    · simp [applyOp, List.getElem?_map, hget]
    · unfold applySetEmailError
      split <;> simpa using hp

theorem applyOps_paid_preserved (ops : List Op) (db : DB) (i : Nat) (t : Tx)
    (hget : db.txs[i]? = some t) (hp : t.status = "paid") :
    ∃ u, (applyOps db ops).txs[i]? = some u ∧ u.status = "paid" := by
  induction ops generalizing db t with
  | nil => exact ⟨t, hget, hp⟩
  | cons op rest ih =>
    obtain ⟨u, hu, hup⟩ := applyOp_paid_preserved db op i t hget hp
    exact ih (applyOp db op) u hu hup

theorem runAll_paid_preserved (ds : List (Env × Payload)) (db : DB) (i : Nat) (t : Tx)
    (hget : db.txs[i]? = some t) (hp : t.status = "paid") :
    ∃ u, (runAll db ds).txs[i]? = some u ∧ u.status = "paid" := by
  induction ds generalizing db t with
  | nil => exact ⟨t, hget, hp⟩
  | cons ep rest ih =>
    obtain ⟨u, hu, hup⟩ :=
      applyOps_paid_preserved (handler ep.1 db ep.2).ops db i t hget hp
    exact ih (run ep.1 db ep.2) u hu hup

theorem handler_ack_of (env : Env) (db : DB) (p : Payload)
    (h : p.sessionId = "" ∨ ¬ intTruthy p.orderId ∨ findTx db p.sessionId = none ∨
         ∃ tx, findTx db p.sessionId = some tx ∧ tx.status = "paid") :
    handler env db p = ⟨200, [Op.insertEvent (auditEvent p)], false, false⟩ := by
  unfold handler
  by_cases hid : p.sessionId = "" ∨ ¬ intTruthy p.orderId
  · rw [if_pos hid]
  · rw [if_neg hid]
    rcases h with h | h | h | ⟨tx, htx, hpaid⟩
    · exact absurd (Or.inl h) hid
    · exact absurd (Or.inr h) hid
    · rw [h]
    · rw [htx]
      simp [hpaid]

/-- C1: a delivery whose transaction is already `paid` is acknowledged
with 200 and mutates nothing beyond the write-ahead audit event; the
mark-paid update leaves already-paid rows untouched (guard
`status != 'paid'` at write time), so `paid` is terminal under any
sequence of webhook deliveries. -/
theorem webhook_paid_is_terminal
    (env : Env) (db : DB) (p : Payload) (tx : Tx)
    (hfind : findTx db p.sessionId = some tx) (hpaid : tx.status = "paid") :
    (handler env db p).status = 200 ∧
    (handler env db p).ops = [Op.insertEvent (auditEvent p)] ∧
    (run env db p).txs = db.txs ∧
    (∀ sid pa oid u, u.status = "paid" → applyMarkPaid sid pa oid u = u) ∧
    (∀ ds : List (Env × Payload), ∀ i : Nat, ∀ u : Tx,
      db.txs[i]? = some u → u.status = "paid" →
      ∃ v, (runAll db ds).txs[i]? = some v ∧ v.status = "paid") := by
  have hh := handler_ack_of env db p (Or.inr (Or.inr (Or.inr ⟨tx, hfind, hpaid⟩)))
  refine ⟨by rw [hh], by rw [hh], ?_,
    fun sid pa oid u hu => applyMarkPaid_of_paid sid pa oid hu,
    fun ds i u hget hu => runAll_paid_preserved ds db i u hget hu⟩
  show (applyOps db (handler env db p).ops).txs = db.txs
  rw [hh]
  rfl

/-- C1 witness: concrete already-paid transaction. -/
theorem webhook_paid_is_terminal_witness :
    (handler Samples.env1 Samples.dbPaid Samples.pay1).ops =
      [Op.insertEvent (auditEvent Samples.pay1)] :=
  (webhook_paid_is_terminal Samples.env1 Samples.dbPaid Samples.pay1 Samples.txPaid
    (by decide) (by decide)).2.1

/-- C2: a delivery with a missing session or order identifier, or whose
session has no transaction, is acknowledged with 200; the audit event is
still recorded and no transaction row is created or mutated. -/
theorem webhook_malformed_or_unknown_is_audited_noop
    (env : Env) (db : DB) (p : Payload)
    (h : p.sessionId = "" ∨ ¬ intTruthy p.orderId ∨ findTx db p.sessionId = none) :
    (handler env db p).status = 200 ∧
    (handler env db p).ops = [Op.insertEvent (auditEvent p)] ∧
    (run env db p).txs = db.txs ∧
    (run env db p).events = db.events ++ [auditEvent p] := by
  have hh : handler env db p = ⟨200, [Op.insertEvent (auditEvent p)], false, false⟩ := by
    apply handler_ack_of
    rcases h with h | h | h
    · exact Or.inl h
    · exact Or.inr (Or.inl h)
    · exact Or.inr (Or.inr (Or.inl h))
  refine ⟨by rw [hh], by rw [hh], ?_, ?_⟩
  · show (applyOps db (handler env db p).ops).txs = db.txs
    rw [hh]
    rfl
  · show (applyOps db (handler env db p).ops).events = db.events ++ [auditEvent p]
    rw [hh]
    rfl

/-- C2 witness: webhook for an unknown session. -/
theorem webhook_malformed_or_unknown_is_audited_noop_witness :
    (run Samples.env1 Samples.dbReg Samples.payUnknown).txs = Samples.dbReg.txs :=
  (webhook_malformed_or_unknown_is_audited_noop Samples.env1 Samples.dbReg Samples.payUnknown
    (Or.inr (Or.inr (by decide)))).2.2.1

theorem handler_ops_cons (env : Env) (db : DB) (p : Payload) :
    ∃ rest, (handler env db p).ops = Op.insertEvent (auditEvent p) :: rest := by
  unfold handler paidPhase
  repeat' split
  all_goals exact ⟨_, rfl⟩

/-- C3: on every invocation the first database operation is the insert of
the `webhook_status` audit event — no transaction update precedes it —
and the audit record is present in the final state for every outcome of
the external calls. -/
theorem webhook_audit_written_first (env : Env) (db : DB) (p : Payload) :
    (handler env db p).ops.head? = some (Op.insertEvent (auditEvent p)) ∧
    (auditEvent p).event_type = "webhook_status" ∧
    auditEvent p ∈ (run env db p).events := by
  obtain ⟨rest, hrest⟩ := handler_ops_cons env db p
  refine ⟨by rw [hrest]; rfl, rfl, ?_⟩
  have h0 : auditEvent p ∈ (applyOp db (Op.insertEvent (auditEvent p))).events := by
    simp [applyOp]
  have hmem := mem_events_applyOps rest (applyOp db (Op.insertEvent (auditEvent p))) h0
  show auditEvent p ∈ (applyOps db (handler env db p).ops).events
  rw [hrest, applyOps_cons]
  exact hmem

theorem handler_eq_paidPhase (env : Env) (db : DB) (p : Payload) (tx : Tx)
    (hid : ¬ (p.sessionId = "" ∨ ¬ intTruthy p.orderId))
    (hfind : findTx db p.sessionId = some tx)
    (hnp : ¬ tx.status = "paid")
    (hamt : intTruthy tx.amount_grosze)
    (hv : env.verifyOk = true) :
    handler env db p = paidPhase env db p := by
  unfold handler
  rw [if_neg hid, hfind]
  simp [hnp, hamt, hv]

theorem handler_emailCalled_sound (env : Env) (db : DB) (p : Payload)
    (h : (handler env db p).emailCalled = true) :
    ∃ u, updatedRow env db p = some u ∧ strTruthy u.email = true ∧
      strTruthy u.thankyou_email_sent_at = false := by
  unfold handler paidPhase at h
  repeat' split at h
  any_goals simp at h
  all_goals rename_i u hu hmail he
  all_goals exact ⟨u, hu, hmail.1, by simpa using hmail.2⟩

/-- C4: on the successful verify path, the thank-you notification is
attempted exactly when the conditional mark-paid update changed a row
whose e-mail is set and whose notification timestamp is still unset; the
notification-sent marker update is itself guarded by the timestamp being
null; and a send failure records the error on the transaction while the
webhook still answers 200. -/
theorem webhook_email_exactly_when_row_changed
    (env : Env) (db : DB) (p : Payload) (tx : Tx)
    (hid : ¬ (p.sessionId = "" ∨ ¬ intTruthy p.orderId))
    (hfind : findTx db p.sessionId = some tx)
    (hnp : ¬ tx.status = "paid")
    (hamt : intTruthy tx.amount_grosze)
    (hv : env.verifyOk = true) :
    ((handler env db p).emailCalled = true ↔
      ∃ u, updatedRow env db p = some u ∧
        strTruthy u.email = true ∧ strTruthy u.thankyou_email_sent_at = false) ∧
    (handler env db p).status = 200 ∧
    (env.emailOk = false → (handler env db p).emailCalled = true →
      Op.setEmailError p.sessionId env.emailErrMsg ∈ (handler env db p).ops) ∧
    (∀ sid ts u, u.thankyou_email_sent_at ≠ none → applyMarkEmailSent sid ts u = u) ∧
    (∀ (env2 : Env) (db2 : DB) (p2 : Payload), (handler env2 db2 p2).emailCalled = true →
      ∃ u, updatedRow env2 db2 p2 = some u ∧ strTruthy u.email = true ∧
        strTruthy u.thankyou_email_sent_at = false) := by
  have hmark : ∀ sid ts (u : Tx), u.thankyou_email_sent_at ≠ none →
      applyMarkEmailSent sid ts u = u := by
    intro sid ts u hu
    unfold applyMarkEmailSent
    rw [if_neg]
    intro hc
    exact hu hc.2
  rw [handler_eq_paidPhase env db p tx hid hfind hnp hamt hv]
  rcases hupd : updatedRow env db p with _ | u
  · refine ⟨?_, ?_, ?_, hmark, handler_emailCalled_sound⟩ <;> simp [paidPhase, hupd]
  · by_cases hmail : strTruthy u.email = true ∧ ¬ strTruthy u.thankyou_email_sent_at = true
    · have hsent : strTruthy u.thankyou_email_sent_at = false := by
        simpa using hmail.2
      by_cases he : env.emailOk = true
      · refine ⟨?_, ?_, ?_, hmark, handler_emailCalled_sound⟩
        · simp only [paidPhase, hupd, if_pos hmail, if_pos he]
          constructor
          · intro _
            exact ⟨u, rfl, hmail.1, hsent⟩
          · intro _
            trivial
        · simp [paidPhase, hupd, hmail, he]
        · intro h1
          rw [he] at h1
          exact Bool.noConfusion h1
      · refine ⟨?_, ?_, ?_, hmark, handler_emailCalled_sound⟩
        · simp only [paidPhase, hupd, if_pos hmail, if_neg he]
          constructor
          · intro _
            exact ⟨u, rfl, hmail.1, hsent⟩
          · intro _
            trivial
        · simp [paidPhase, hupd, hmail, he]
        · intro h1 h2
          simp [paidPhase, hupd, hmail, he, basicOps]
    · refine ⟨?_, ?_, ?_, hmark, handler_emailCalled_sound⟩
      · simp only [paidPhase, hupd, if_neg hmail]
        constructor
        · intro hfalse
          exact absurd hfalse (by simp)
        · rintro ⟨u2, hu2, he1, he2⟩
          obtain rfl : u2 = u := (Option.some.inj hu2).symm
          exact absurd ⟨he1, by simp [he2]⟩ hmail
      · simp only [paidPhase, hupd]
        repeat' split
        all_goals rfl
      · intro h1 h2
        simp only [paidPhase, hupd, if_neg hmail] at h2
        exact absurd h2 (by simp)

/-- C4 witness: fresh registered transaction, successful verify and
e-mail. -/
theorem webhook_email_exactly_when_row_changed_witness :
    (handler Samples.env1 Samples.dbReg Samples.pay1).status = 200 :=
  (webhook_email_exactly_when_row_changed Samples.env1 Samples.dbReg Samples.pay1
    Samples.tx1 (by decide) (by decide) (by decide) (by decide) rfl).2.1

/-- C8: the status-query endpoint (modelled from the spec) returns the
transaction projection for an existing session and null otherwise. -/
theorem statusQuery_projection_or_null (db : DB) (sid : String) :
    (findTx db sid = none → statusQuery db sid = none) ∧
    (∀ t, findTx db sid = some t →
      statusQuery db sid =
        some ⟨t.status, t.amount_grosze, t.currency, t.created_at, t.paid_at⟩) := by
  constructor
  · intro h
    simp [statusQuery, h]
  · intro t h
    simp [statusQuery, h]

/-- C8 witness: query for the registered transaction. -/
theorem statusQuery_projection_or_null_witness :
    statusQuery Samples.dbReg "s1" =
      some ⟨Samples.tx1.status, Samples.tx1.amount_grosze, Samples.tx1.currency,
            Samples.tx1.created_at, Samples.tx1.paid_at⟩ :=
  (statusQuery_projection_or_null Samples.dbReg "s1").2 Samples.tx1 (by decide)

end P24

namespace FBNews

/-- C6: the content digest depends only on the whitespace-normalized
title and body: the cosmetic fields (date, link, image) never affect it,
and — in the injective digest model of SHA-256 — it changes exactly when
the normalized title or body changes. -/
theorem contentHash_semantic_only (p q : Post) :
    (∀ (d l : Option String) (img : String) (ch : Option ContentDigest),
      postContentHash { p with date := d, link := l, image := img, content_hash := ch } =
        postContentHash p) ∧
    ((normalizeText p.title = normalizeText q.title ∧
      normalizeText p.body = normalizeText q.body) →
      postContentHash p = postContentHash q) ∧
    (postContentHash p = postContentHash q →
      normalizeText p.title = normalizeText q.title ∧
      normalizeText p.body = normalizeText q.body) := by
  refine ⟨fun d l img ch => rfl, fun h => ?_, fun h => ?_⟩
  · simp only [postContentHash, h.1, h.2]
  · exact ⟨congrArg ContentDigest.title h, congrArg ContentDigest.body h⟩

/-- C6 witness: equal content with different cosmetic fields hashes
alike. -/
theorem contentHash_semantic_only_witness :
    postContentHash Samples.postA = postContentHash Samples.postA2 :=
  (contentHash_semantic_only Samples.postA Samples.postA2).2.1 (by decide)

/-- C10: the batch translator returns exactly one output per input
(padding with empty strings or truncating the provider response as
needed), and makes no provider request when the input list is empty or
every element is empty. -/
theorem translateMany_length_and_empty_skip (env : DeepLEnv) (texts : List String) :
    (∀ out, (translateManyWithDeepL env texts).1 = some out →
      out.length = texts.length) ∧
    ((texts = [] ∨ ∀ t ∈ texts, t = "") →
      (translateManyWithDeepL env texts).2 = 0) := by
  constructor
  · intro out hout
    simp only [translateManyWithDeepL] at hout
    by_cases h1 : texts.isEmpty = true
    · rw [if_pos h1] at hout
      obtain rfl : ([] : List String) = out := Option.some.inj hout
      simp [List.isEmpty_iff.mp h1]
    · rw [if_neg h1] at hout
      by_cases h2 : texts.all (fun t => decide (t = "")) = true
      · rw [if_pos h2] at hout
        obtain rfl := Option.some.inj hout
        simp
      · rw [if_neg h2] at hout
        by_cases h3 : ¬ env.httpOk = true
        · rw [if_pos h3] at hout
          exact absurd hout (by simp)
        · rw [if_neg h3] at hout
          obtain rfl := Option.some.inj hout
          simp [List.length_take]
          omega
  · intro h
    simp only [translateManyWithDeepL]
    rcases h with h | h
    · subst h
      rfl
    · by_cases h1 : texts.isEmpty = true
      · rw [if_pos h1]
      · rw [if_neg h1]
        have hall : texts.all (fun t => decide (t = "")) = true := by
          rw [List.all_eq_true]
          intro x hx
          simpa using h x hx
        rw [if_pos hall]

/-- C10 witness: empty input makes no request. -/
theorem translateMany_length_and_empty_skip_witness :
    (translateManyWithDeepL Samples.deepl2 []).2 = 0 :=
  (translateMany_length_and_empty_skip Samples.deepl2 []).2 (Or.inl rfl)

end FBNews

namespace FBNews

theorem setPostField_hash (p : Post) (f : TField) (v : Option String) :
    (setPostField p f v).content_hash = p.content_hash := by
  cases f <;> rfl

theorem writeField_length (arr : List Post) (i : Nat) (f : TField) (v : Option String) :
    (writeField arr i f v).length = arr.length := by
  unfold writeField
  split
  · simp
  · rfl

theorem writeField_hash (arr : List Post) (i : Nat) (f : TField) (v : Option String)
    (j : Nat) :
    ((writeField arr i f v)[j]?).map Post.content_hash =
      (arr[j]?).map Post.content_hash := by
  unfold writeField
  split
  case h_1 p hp =>
    by_cases hij : i = j
    · subst hij
      have hlt : i < arr.length := by
        by_contra hge
        rw [List.getElem?_eq_none (by omega)] at hp
        exact Option.noConfusion hp
      rw [List.getElem?_set_self hlt, hp]
      simp [setPostField_hash]
    · rw [List.getElem?_set_ne hij]
  case h_2 => rfl

theorem splitStep_fst (acc : List Post × List TransReq) (t : TransReq) :
    ((splitStep acc t).1.length = acc.1.length) ∧
    ∀ j : Nat, (((splitStep acc t).1)[j]?).map Post.content_hash =
      (acc.1[j]?).map Post.content_hash := by
  unfold splitStep
  split
  · exact ⟨writeField_length _ _ _ _, fun j => writeField_hash _ _ _ _ j⟩
  · exact ⟨rfl, fun j => rfl⟩

theorem splitFold_fst (reqs : List TransReq) :
    ∀ acc : List Post × List TransReq,
      ((reqs.foldl splitStep acc).1.length = acc.1.length) ∧
      ∀ j : Nat, (((reqs.foldl splitStep acc).1)[j]?).map Post.content_hash =
        (acc.1[j]?).map Post.content_hash := by
  induction reqs with
  | nil => exact fun acc => ⟨rfl, fun j => rfl⟩
  | cons t rest ih =>
    intro acc
    obtain ⟨hlen, hhash⟩ := splitStep_fst acc t
    obtain ⟨ihlen, ihhash⟩ := ih (splitStep acc t)
    refine ⟨by rw [List.foldl_cons, ihlen, hlen], fun j => ?_⟩
    rw [List.foldl_cons, ihhash j, hhash j]

theorem fillFold (l : List (TransReq × String)) :
    ∀ arr : List Post,
      ((l.foldl fillStep arr).length = arr.length) ∧
      ∀ j : Nat, ((l.foldl fillStep arr)[j]?).map Post.content_hash =
        (arr[j]?).map Post.content_hash := by
  induction l with
  | nil => exact fun arr => ⟨rfl, fun j => rfl⟩
  | cons pr rest ih =>
    intro arr
    obtain ⟨ihlen, ihhash⟩ := ih (fillStep arr pr)
    refine ⟨?_, fun j => ?_⟩
    · rw [List.foldl_cons, ihlen]
      exact writeField_length _ _ _ _
    · rw [List.foldl_cons, ihhash j]
      exact writeField_hash _ _ _ _ j

theorem buildStep_fst (existing : List Post) (acc : List Post × List TransReq)
    (p : Post) :
    ∃ e, (buildStep existing acc p).1 = acc.1 ++ [e] ∧
      e.content_hash = some (postContentHash p) := by
  simp only [buildStep]
  split
  · exact ⟨_, rfl, rfl⟩
  · exact ⟨_, rfl, rfl⟩

theorem buildFold (existing : List Post) (posts : List Post) :
    ∀ acc : List Post × List TransReq,
      ((posts.foldl (buildStep existing) acc).1.length = acc.1.length + posts.length) ∧
      (∀ i, i < acc.1.length →
        (posts.foldl (buildStep existing) acc).1[i]? = acc.1[i]?) ∧
      (∀ (j : Nat) (p : Post), posts[j]? = some p →
        ∃ q, (posts.foldl (buildStep existing) acc).1[acc.1.length + j]? = some q ∧
          q.content_hash = some (postContentHash p)) := by
  induction posts with
  | nil =>
    intro acc
    refine ⟨by simp, fun i hi => rfl, fun j p hp => ?_⟩
    simp at hp
  | cons p0 rest ih =>
    intro acc
    obtain ⟨e, he, hech⟩ := buildStep_fst existing acc p0
    have hlen1 : (buildStep existing acc p0).1.length = acc.1.length + 1 := by
      rw [he]
      simp
    obtain ⟨ihlen, ihpres, ihnew⟩ := ih (buildStep existing acc p0)
    refine ⟨?_, ?_, ?_⟩
    · rw [List.foldl_cons, ihlen, hlen1]
      simp only [List.length_cons]
      omega
    · intro i hi
      rw [List.foldl_cons, ihpres i (by omega), he, List.getElem?_append_left hi]
    · intro j p hp
      cases j with
      | zero =>
        obtain rfl : p0 = p := by simpa using hp
        refine ⟨e, ?_, hech⟩
        rw [List.foldl_cons, Nat.add_zero, ihpres acc.1.length (by omega), he,
          List.getElem?_concat_length]
      | succ j =>
        have hp2 : rest[j]? = some p := by simpa using hp
        obtain ⟨q, hq, hqch⟩ := ihnew j p hp2
        refine ⟨q, ?_, hqch⟩
        rw [List.foldl_cons, show acc.1.length + (j + 1) =
          (buildStep existing acc p0).1.length + j by omega]
        exact hq

theorem ensureRebuild_result_posts (env : DeepLEnv) (nowSec : Nat)
    (posts existingPosts : List Post) (d : CacheData)
    (h : (ensureRebuild env nowSec posts existingPosts).result = some d) :
    d.source_hash = some (stablePostsFingerprint posts) ∧
    ∃ arr, d.posts = some arr ∧ arr.length = posts.length ∧
      ∀ (i : Nat) (p : Post), posts[i]? = some p →
        ∃ q, arr[i]? = some q ∧ q.content_hash = some (postContentHash p) := by
  have hbuild := buildFold existingPosts posts ([], [])
  obtain ⟨blen, bpres, bnew⟩ := hbuild
  have hsplit := splitFold_fst (buildEnPosts existingPosts posts).2
    ((buildEnPosts existingPosts posts).1, [])
  obtain ⟨slen, shash⟩ := hsplit
  have harr : ∀ arr2 : List Post,
      (arr2.length = (splitEmpty (buildEnPosts existingPosts posts).1
        (buildEnPosts existingPosts posts).2).1.length) →
      (∀ j : Nat, (arr2[j]?).map Post.content_hash =
        ((splitEmpty (buildEnPosts existingPosts posts).1
          (buildEnPosts existingPosts posts).2).1[j]?).map Post.content_hash) →
      arr2.length = posts.length ∧
      ∀ (i : Nat) (p : Post), posts[i]? = some p →
        ∃ q, arr2[i]? = some q ∧ q.content_hash = some (postContentHash p) := by
    intro arr2 h2len h2hash
    constructor
    · rw [h2len]
      show ((buildEnPosts existingPosts posts).2.foldl splitStep
        ((buildEnPosts existingPosts posts).1, [])).1.length = posts.length
      rw [slen]
      simpa using blen
    · intro i p hp
      obtain ⟨q, hq, hqch⟩ := bnew i p hp
      have hq0 : (buildEnPosts existingPosts posts).1[i]? = some q := by
        simpa using hq
      have : (arr2[i]?).map Post.content_hash = some (some (postContentHash p)) := by
        rw [h2hash i]
        show (((buildEnPosts existingPosts posts).2.foldl splitStep
          ((buildEnPosts existingPosts posts).1, [])).1[i]?).map Post.content_hash = _
        rw [shash i, hq0]
        simp [hqch]
      obtain ⟨q2, hq2, hq2h⟩ := Option.map_eq_some'.mp this
      exact ⟨q2, hq2, hq2h⟩
  simp only [ensureRebuild] at h
  split at h
  · obtain rfl := Option.some.inj h
    refine ⟨rfl, (splitEmpty (buildEnPosts existingPosts posts).1
      (buildEnPosts existingPosts posts).2).1, rfl, harr _ rfl (fun j => rfl)⟩
  · split at h
    case h_1 translated n htr =>
      obtain rfl := Option.some.inj h
      refine ⟨rfl, fillTranslations (splitEmpty (buildEnPosts existingPosts posts).1
        (buildEnPosts existingPosts posts).2).1 (splitEmpty (buildEnPosts existingPosts posts).1
        (buildEnPosts existingPosts posts).2).2 translated, rfl, ?_⟩
      obtain ⟨flen, fhash⟩ := fillFold ((splitEmpty (buildEnPosts existingPosts posts).1
        (buildEnPosts existingPosts posts).2).2.zip translated)
        (splitEmpty (buildEnPosts existingPosts posts).1
          (buildEnPosts existingPosts posts).2).1
      exact harr _ flen fhash
    case h_2 n htr =>
      exact absurd h (by simp)

end FBNews

namespace FBNews

/-- C9: the derived-language rebuild produces exactly one EN item per
input item, in the same order, the i-th output carrying the content
digest of the i-th input item — whether the item was reused from the
prior EN cache or freshly translated. -/
theorem enPosts_align_with_source (env : DeepLEnv) (nowSec : Nat)
    (posts existingPosts : List Post) (d : CacheData)
    (h : (ensureRebuild env nowSec posts existingPosts).result = some d) :
    ∃ arr, d.posts = some arr ∧ arr.length = posts.length ∧
      ∀ (i : Nat) (p : Post), posts[i]? = some p →
        ∃ q, arr[i]? = some q ∧ q.content_hash = some (postContentHash p) :=
  (ensureRebuild_result_posts env nowSec posts existingPosts d h).2

/-- C9 witness: rebuilding for a single fresh item. -/
theorem enPosts_align_with_source_witness :
    ∃ arr, (⟨5, some [⟨"Hello.", "Hello. World"⟩],
        some [⟨some "T-en", some "B-en", some "d1", some "l1", "i1",
          some ⟨"Hello.", "Hello. World"⟩⟩]⟩ : CacheData).posts = some arr ∧
      arr.length = [Samples.postA].length ∧
      ∀ (i : Nat) (p : Post), [Samples.postA][i]? = some p →
        ∃ q, arr[i]? = some q ∧ q.content_hash = some (postContentHash p) :=
  enPosts_align_with_source Samples.deepl2 5 [Samples.postA] []
    ⟨5, some [⟨"Hello.", "Hello. World"⟩],
     some [⟨some "T-en", some "B-en", some "d1", some "l1", "i1",
       some ⟨"Hello.", "Hello. World"⟩⟩]⟩ (by decide)

theorem ensure_success_source_hash (env : DeepLEnv) (k : Bool) (now : Nat)
    (posts : List Post) (cache : Option CacheData) (d : CacheData)
    (h : (ensureEnglishCache env k now posts cache).result = some d) :
    d.source_hash = some (stablePostsFingerprint posts) := by
  unfold ensureEnglishCache at h
  split at h
  · exact absurd h (by simp)
  · split at h
    case h_1 data =>
      split at h
      case isTrue hh =>
        obtain rfl : data = d := Option.some.inj h
        exact hh
      case isFalse hh =>
        exact (ensureRebuild_result_posts env now posts (data.posts.getD []) d h).1
    case h_2 =>
      exact (ensureRebuild_result_posts env now posts [] d h).1

/-- C5: when the stored EN collection's recorded source hash equals the
fingerprint recomputed over the current posts, the stored collection is
returned unchanged with zero translation-provider calls (and no cache
write); consequently a second reconciliation after any successful one,
with the source collection unchanged, makes no provider call. -/
theorem ensureEnglishCache_unchanged_source_no_calls
    (env env2 : DeepLEnv) (now now2 : Nat) (posts : List Post)
    (data : CacheData) (cache : Option CacheData) (d : CacheData)
    (hhash : data.source_hash = some (stablePostsFingerprint posts)) :
    ensureEnglishCache env true now posts (some data) = ⟨some data, 0, false⟩ ∧
    ((ensureEnglishCache env2 true now2 posts cache).result = some d →
      ensureEnglishCache env true now posts (some d) = ⟨some d, 0, false⟩) := by
  have hit : ∀ dt : CacheData, dt.source_hash = some (stablePostsFingerprint posts) →
      ensureEnglishCache env true now posts (some dt) = ⟨some dt, 0, false⟩ := by
    intro dt hdt
    unfold ensureEnglishCache
    simp [hdt]
  exact ⟨hit data hhash,
    fun h => hit d (ensure_success_source_hash env2 true now2 posts cache d h)⟩

/-- C5 witness: cache hit on a matching stored hash. -/
theorem ensureEnglishCache_unchanged_source_no_calls_witness :
    ensureEnglishCache Samples.deepl2 true 9 [Samples.postA] (some Samples.dataEn) =
      ⟨some Samples.dataEn, 0, false⟩ :=
  (ensureEnglishCache_unchanged_source_no_calls Samples.deepl2 Samples.deepl2 9 9
    [Samples.postA] Samples.dataEn none Samples.dataEn (by decide)).1

end FBNews

namespace Create

/-- C7 counterexample: the fractional amount 100.5 grosze (denominator 2,
so not an integer) is not rejected — `validateAmount` truncates it and
accepts the value 100, and the create handler proceeds — refuting
"accepts an amount only if it is a positive integer". -/
theorem validateAmount_accepts_fractional :
    validateAmount 100 1000000 (some (mkRat 201 2)) = .ok 100 ∧
    (mkRat 201 2).den = 2 ∧
    createValidate 100 1000000 true true (some (mkRat 201 2)) (.vBool true) (.vBool true)
      "a@b" = .accepted 100 := by
  decide

/-- C7 (amended): with a positive configured minimum, an amount is
accepted exactly when the truncation of its numeric value toward zero is
an integer within the configured bounds — so every accepted value is a
positive integer, but a fractional amount is accepted through its
truncation rather than rejected; any amount failing the check is
rejected by the handler with a 400 amount error; amount 50 under
configured minimum 100 is rejected with the minimum-amount error. -/
theorem create_amount_validation (minG maxG : Int) (x : Option Rat) (n : Int)
    (re : Bool) (privacy terms : JsVal) (email : String) (hmin : 0 < minG) :
    (validateAmount minG maxG x = .ok n ↔ toInt x = some n ∧ minG ≤ n ∧ n ≤ maxG) ∧
    (validateAmount minG maxG x = .ok n → 0 < n) ∧
    ((∀ m : Int, validateAmount minG maxG x ≠ .ok m) →
      createValidate minG maxG re true x privacy terms email =
        .rejected 400 (.amount (validateAmount minG maxG x))) ∧
    validateAmount 100 1000000 (some 50) = .errMin ∧
    createValidate 100 1000000 re true (some 50) privacy terms email =
      .rejected 400 (.amount .errMin) := by
  have hiff : validateAmount minG maxG x = .ok n ↔
      toInt x = some n ∧ minG ≤ n ∧ n ≤ maxG := by
    unfold validateAmount
    rcases hx : toInt x with _ | m
    · constructor
      · intro h
        exact absurd h (by simp)
      · rintro ⟨h, -⟩
        exact Option.noConfusion h
    · dsimp only
      constructor
      · intro h
        split at h
        · exact absurd h (by simp)
        · split at h
          · exact absurd h (by simp)
          · obtain rfl : m = n := AmountCheck.ok.inj h
            exact ⟨rfl, by omega, by omega⟩
      · rintro ⟨hsome, hge, hle⟩
        obtain rfl : m = n := Option.some.inj hsome
        rw [if_neg (by omega), if_neg (by omega)]
  have h50 : validateAmount 100 1000000 (some 50) = .errMin := by decide
  refine ⟨hiff, ?_, ?_, h50, ?_⟩
  · intro h
    have := hiff.mp h
    omega
  · intro hall
    unfold createValidate
    rw [if_neg (by simp)]
    rcases hv : validateAmount minG maxG x with m | _ | _ | _
    · exact absurd hv (hall m)
    · rfl
    · rfl
    · rfl
  · unfold createValidate
    rw [if_neg (by simp), h50]

/-- C7 witness: amount 50 under minimum 100 is rejected with the
minimum-amount error. -/
theorem create_amount_validation_witness :
    validateAmount 100 1000000 (some 50) = .errMin :=
  (create_amount_validation 100 1000000 (some 50) 50 true (.vBool true) (.vBool true)
    "a@b" (by decide)).2.2.2.1

end Create
